import Mathlib

/-!
Shallow embedding of the core of the backup program (snapshot status state
machine, directory locking, cycle retention and promotion, sync supervision,
and path parsing), translated from the Python sources under src/backup/,
together with theorems settling the claims C1 to C10 about it.

Conventions of the embedding:
  a Python str is modelled as a List Char (path functions) or String
  (interval names); machine-level OS side effects (mkdir, rename, unlink)
  are modelled by the in-memory fields that mirror them (status file content,
  lock directory existence); Python exceptions are modelled with Except.
-/

namespace Backup

/-! ## Status enumeration, from snapshot.py line 45.
Python enum.Enum assigns 1-based values in declaration order. -/

inductive Status where
  | void
  | blank
  | syncing
  | flagged
  | complete
  | deleting
  | deleted
deriving DecidableEq

/-- The numeric value of a member of the Status enum (1-based, as Python
enum.Enum assigns them for "void, blank, syncing, flagged, complete,
deleting, deleted"). -/
def Status.value : Status → Nat
  | .void => 1
  | .blank => 2
  | .syncing => 3
  | .flagged => 4
  | .complete => 5
  | .deleting => 6
  | .deleted => 7

/-- Status(n) for an Int n: the enum lookup performed by
snapshot.py infer_status and _status_file_check, which raises ValueError
(here: none) for values outside 1..7. -/
def Status.ofInt (n : Int) : Option Status :=
  if n = 1 then some .void
  else if n = 2 then some .blank
  else if n = 3 then some .syncing
  else if n = 4 then some .flagged
  else if n = 5 then some .complete
  else if n = 6 then some .deleting
  else if n = 7 then some .deleted
  else none

/-- The three states that snapshot.py persists into the status file
(the status setter branch on line 281). -/
def Status.isDirty : Status → Bool
  | .syncing => true
  | .flagged => true
  | .deleting => true
  | _ => false

/-! ## Legacy status constants from engine.py lines 46 to 61.
These are module-level 0-based integers, distinct from the Status enum. -/

namespace Engine

def VOID : Nat := 0
def BLANK : Nat := 1
def SYNCING : Nat := 2
def COMPLETE : Nat := 3
def DELETING : Nat := 4
def DELETED : Nat := 5

/-- The engine.py _status_lookup table mapping the legacy constants to
their names, used for logging; none outside 0..5. -/
def statusLookup : Nat → Option String
  | 0 => some "VOID"
  | 1 => some "BLANK"
  | 2 => some "SYNCING"
  | 3 => some "COMPLETE"
  | 4 => some "DELETING"
  | 5 => some "DELETED"
  | _ => none

end Engine

/-! ## Python int() parsing, needed because infer_status and
_status_file_check run Status(int(f.read())) on the status file content.
Python int(str) strips ASCII whitespace, allows one leading sign, and
allows single underscores between digits. -/

def isPySpace (c : Char) : Bool :=
  c = ' ' || c = '\t' || c = '\n' || c = '\r' || c = Char.ofNat 11 || c = Char.ofNat 12

def pyStrip (s : List Char) : List Char :=
  ((s.dropWhile isPySpace).reverse.dropWhile isPySpace).reverse

def isDigitChar (c : Char) : Bool :=
  '0' ≤ c && c ≤ '9'

def digitVal (c : Char) : Nat := c.toNat - '0'.toNat

/-- Digit run with optional single underscores between digits, after the
first digit has been consumed into acc. -/
def pyDigitsAux (acc : Nat) : List Char → Option Nat
  | [] => some acc
  | c :: rest =>
    if c = '_' then
      match rest with
      | c2 :: rest2 =>
        if isDigitChar c2 then pyDigitsAux (acc * 10 + digitVal c2) rest2 else none
      | [] => none
    else if isDigitChar c then pyDigitsAux (acc * 10 + digitVal c) rest
    else none

/-- Nonempty digit run (underscore-separated) starting at the head. -/
def pyDigits : List Char → Option Nat
  | [] => none
  | c :: rest => if isDigitChar c then pyDigitsAux (digitVal c) rest else none

/-- Python int(s) for an ASCII string s; none models ValueError. -/
def pyInt (s : List Char) : Option Int :=
  match pyStrip s with
  | [] => none
  | c :: rest =>
    if c = '+' then (pyDigits rest).map Int.ofNat
    else if c = '-' then (pyDigits rest).map (fun n => -(n : Int))
    else (pyDigits (c :: rest)).map Int.ofNat

/-- Status(int(content)): how snapshot.py decodes a status file body.
none models the ValueError raised either by int() or by the enum lookup. -/
def readStatusFile (content : List Char) : Option Status :=
  match pyInt content with
  | none => none
  | some n => Status.ofInt n

/-- Python chr(48 + n) for a decimal digit, as core Nat.digitChar. -/
def digitChar (n : Nat) : Char := Nat.digitChar n

/-- str(newstatus.value) for an enum value; every Status value is a single
decimal digit (1..7), so the file body is one character. -/
def statusFileBody (s : Status) : List Char := [digitChar s.value]

/-! ## Snapshot status setter, from snapshot.py lines 236 to 297.
The embedded state keeps the in-memory _status, the content of the on-disk
status file (none when absent), and whether the lock directory is held.
The setter in snapshot.py never consults the lock; the field is carried to
state that fact (claim C5). -/

structure SnapFileState where
  status : Status
  statusfile : Option (List Char)
  locked : Bool
deriving DecidableEq

inductive SetErr where
  /-- open(self.statusfile) raised FileNotFoundError inside
  _status_file_check. -/
  | fileNotFound
  /-- Status(int(...)) raised ValueError, or the assert comparing the file
  status with the in-memory status failed. -/
  | assertionError
  /-- RuntimeError: changing the status of a deleted snapshot. -/
  | runtimeError
deriving DecidableEq

/-- _status_file_check (snapshot.py lines 254 to 259): when the in-memory
status is one of the dirty states, the status file must exist and decode to
the same status. -/
def statusFileCheck (s : SnapFileState) : Except SetErr Unit :=
  if s.status.isDirty then
    match s.statusfile with
    | none => .error .fileNotFound
    | some content =>
      match readStatusFile content with
      | none => .error .assertionError
      | some fs => if fs = s.status then .ok () else .error .assertionError
  else .ok ()

/-- The status property setter (snapshot.py lines 261 to 288).
Reading self.status inside the setter re-runs _status_file_check; it is
pure here, so the repeated reads collapse to one check. Entering a dirty
state writes str(value) into the status file; any other state removes the
file (FileNotFoundError on unlink is swallowed). The lock is never
examined. -/
def setStatus (s : SnapFileState) (new : Status) : Except SetErr SnapFileState := do
  statusFileCheck s
  if s.status = .deleted ∧ new ≠ .deleted then
    .error .runtimeError
  else
    let new2 := if s.status = .flagged ∧ new = .syncing then Status.flagged else new
    if new2.isDirty then
      .ok { s with status := new2, statusfile := some (statusFileBody new2) }
    else
      .ok { s with status := new2, statusfile := none }

/-- A setter call as executed inside a try block that leaves the object
untouched when the setter raises: the Python exception interrupts the
assignment before any field was mutated. -/
def setStatusTry (s : SnapFileState) (new : Status) : SnapFileState :=
  match setStatus s new with
  | .ok s2 => s2
  | .error _ => s

/-- A sequence of attempted status assignments. -/
def applySeq (s : SnapFileState) (l : List Status) : SnapFileState :=
  l.foldl setStatusTry s

/-! ## Lockable, from locking.py lines 79 to 161.
The lock is a directory whose existence means held, with a marker file
inside naming the owner. The embedded state views the lock from one owner:
dirExists mirrors os.access(lockfile), myMarker mirrors the unique marker
of this process/thread/object. A state with dirExists and not myMarker is
a lock held by somebody else. -/

structure LockState where
  dirExists : Bool
  myMarker : Bool
deriving DecidableEq

inductive LockErr where
  | alreadyLocked
deriving DecidableEq

inductive UnlockErr where
  | alreadyUnlocked
  | notMyLock
deriving DecidableEq

/-- Lockable.acquire: mkdir the lock directory (atomic); when it already
exists, re-acquiring an own lock is an idempotent success and a foreign
lock raises AlreadyLocked. The LockFailed branch covers other OS errors
and has no counterpart in the in-memory embedding. -/
def acquire (s : LockState) : Except LockErr LockState :=
  if s.dirExists then
    if s.myMarker then .ok s
    else .error .alreadyLocked
  else .ok ⟨true, true⟩

/-- Lockable.release: raises AlreadyUnlocked when the lock directory is
absent, NotMyLock when it is held without the own marker, otherwise removes
the marker and the directory. -/
def release (s : LockState) : Except UnlockErr LockState :=
  if s.dirExists = false then .error .alreadyUnlocked
  else if s.myMarker = false then .error .notMyLock
  else .ok ⟨false, false⟩

/-- Result of running a with-statement over a Lockable (locking.py
lines 155 to 161). The body receives a payload of type a and reports
whether it raised; ok and raised both carry the lock state left behind
after the exit handler ran. -/
inductive ScopeResult (a : Type) where
  /-- The body returned normally and the exit handler ran. -/
  | ok (lock : LockState) (x : a)
  /-- The body raised; the exit handler ran, then the exception
  propagated. -/
  | raised (lock : LockState) (x : a)
  /-- enter, that is acquire, raised; the body never ran. -/
  | lockError (e : LockErr)
  /-- release inside the exit handler raised; that exception propagates. -/
  | unlockError (e : UnlockErr) (x : a)
deriving DecidableEq

/-- A with-statement over a Lockable. Lockable.enter calls acquire and
Lockable.exit calls release unconditionally, ignoring the exc_type,
exc_value and traceback arguments, so release also runs when the body
raised; returning None from exit lets the exception propagate. The body
is a pure function on the payload returning the new payload and a flag
that is true when the body raised. -/
def scopeExit (s1 : LockState) (r : a × Bool) : ScopeResult a :=
  match release s1 with
  | .error e => .unlockError e r.1
  | .ok s2 => if r.2 then .raised s2 r.1 else .ok s2 r.1

def withLockable (s : LockState) (x : a) (body : a → a × Bool) : ScopeResult a :=
  match acquire s with
  | .error e => .lockError e
  | .ok s1 => scopeExit s1 (body x)

/-! ## Cycle-level snapshot records, from cycle.py.
A snapshot as the Cycle methods see it: its interval name, its timestamp
(none for a wip placeholder, otherwise minutes as an integer, standing for
the datetime), and its status. Lock acquisition inside the with-statements
of purge and feed always pairs with a release and is left implicit. -/

structure Snap where
  interval : String
  timestamp : Option Int
  status : Status
deriving DecidableEq

/-- The counting loop of Cycle.purge (cycle.py lines 137 to 144): walk the
newest-first list, counting complete snapshots and incrementing the cutoff,
and break as soon as the count reaches maxnumber. -/
def cutoffAux (maxnumber : Int) : List Snap → Int → Nat → Nat
  | [], _, cutoff => cutoff
  | s :: rest, count, cutoff =>
    let count2 := if s.status = .complete then count + 1 else count
    if count2 ≥ maxnumber then cutoff + 1
    else cutoffAux maxnumber rest count2 (cutoff + 1)

def cutoffIndex (snaps : List Snap) (maxnumber : Int) : Nat :=
  cutoffAux maxnumber snaps 0 0

inductive CycleErr where
  /-- self.snapshots[0] on an empty list. -/
  | indexError
  /-- Subtraction involving a None timestamp. -/
  | typeError
  /-- Status setter refusal: changing the status of a deleted snapshot. -/
  | runtimeError
deriving DecidableEq

/-- The deletion loop body shared by purge and feed (cycle.py lines 149 to
153 and 179 to 183): for each snapshot, set deleting, call delete (which
removes the tree and sets deleted), set deleted again. Via the status
setter this raises RuntimeError when a snapshot is already deleted, and
otherwise lands it on deleted. -/
def deleteAll : List Snap → Except CycleErr (List Snap)
  | [] => .ok []
  | s :: rest =>
    if s.status = .deleted then .error .runtimeError
    else
      match deleteAll rest with
      | .error e => .error e
      | .ok r => .ok ({ s with status := Status.deleted } :: r)

/-- Cycle.purge without an overflow cycle (cycle.py lines 135 to 154):
compute the cutoff, delete every snapshot at or after it, truncate the
in-memory list to the first cutoff elements. Returns the kept list and the
deleted snapshots. -/
def purgeNoOverflow (snaps : List Snap) (maxnumber : Int) :
    Except CycleErr (List Snap × List Snap) := do
  let cut := cutoffIndex snaps maxnumber
  let deleted ← deleteAll (snaps.drop cut)
  pure (snaps.take cut, deleted)

/-- Number of complete snapshots in a list. -/
def countComplete (snaps : List Snap) : Nat :=
  (snaps.filter (fun s => s.status = .complete)).length

/-! ## Cycle.feed, from cycle.py lines 156 to 183. -/

/-- The insertion condition of feed, with the Python operator precedence
of the source: (status is complete and len(self.snapshots) == 0) or
(snapshot.timestamp - self.snapshots[0].timestamp >= self.timedelta).
The second disjunct is evaluated whenever the first conjunction is false;
on an empty list it raises IndexError, and with a None timestamp on either
side the subtraction raises TypeError. -/
def feedCond (timedelta : Int) (dest : List Snap) (c : Snap) :
    Except CycleErr Bool :=
  if c.status = .complete ∧ dest = [] then .ok true
  else
    match dest with
    | [] => .error .indexError
    | d :: _ =>
      match c.timestamp, d.timestamp with
      | some tc, some td => .ok (decide (tc - td ≥ timedelta))
      | _, _ => .error .typeError

/-- One pass of the for-loop of feed over the candidates in oldest-first
order: find the first candidate whose condition holds, rewrite its interval
(the on-disk rename), push it on the front of the destination list and drop
it from the candidates, then break. Returns none when a full pass inserts
nothing. -/
def scanPass (timedelta : Int) (intv : String) (dest : List Snap) :
    List Snap → Except CycleErr (Option (List Snap × List Snap))
  | [] => .ok none
  | c :: rest =>
    match feedCond timedelta dest c with
    | .error e => .error e
    | .ok true => .ok (some ({ c with interval := intv } :: dest, rest))
    | .ok false =>
      match scanPass timedelta intv dest rest with
      | .error e => .error e
      | .ok none => .ok none
      | .ok (some p) => .ok (some (p.1, c :: p.2))

/-- The while-loop of feed: rescan until a pass inserts nothing. Each
insertion removes one candidate, so fuel = candidates length + 1 makes the
fuel-exhausted branch unreachable; it conservatively mirrors the loop exit. -/
def feedLoop (timedelta : Int) (intv : String) :
    Nat → List Snap → List Snap → Except CycleErr (List Snap × List Snap)
  | 0, dest, cands => .ok (dest, cands)
  | fuel + 1, dest, cands =>
    match scanPass timedelta intv dest cands with
    | .error e => .error e
    | .ok none => .ok (dest, cands)
    | .ok (some (dest2, cands2)) => feedLoop timedelta intv fuel dest2 cands2

/-- Cycle.feed: candidates arrive newest first and the for-loop iterates
reversed(candidates); after the loop, every candidate never inserted is
deleted through the status setter. Returns the new destination list and
the deleted candidates. -/
def feed (timedelta : Int) (intv : String) (dest cands : List Snap) :
    Except CycleErr (List Snap × List Snap) :=
  match feedLoop timedelta intv (cands.length + 1) dest cands.reverse with
  | .error e => .error e
  | .ok r =>
    match deleteAll r.2.reverse with
    | .error e => .error e
    | .ok deleted => .ok (r.1, deleted)

/-- Both snapshots carry timestamps and the newer is at least timedelta
ahead of the older. -/
def tsGap (timedelta : Int) (a b : Snap) : Bool :=
  match a.timestamp, b.timestamp with
  | some ta, some tb => decide (ta - tb ≥ timedelta)
  | _, _ => false

/-- Adjacent spacing invariant on a newest-first list: each neighbouring
pair carries timestamps and differs by at least timedelta. -/
def spaced (timedelta : Int) : List Snap → Bool
  | a :: b :: rest => tsGap timedelta a b && spaced timedelta (b :: rest)
  | _ => true

/-! ## Cycle.create_new_snapshot, from cycle.py lines 185 to 269.
The engine (the rsync wrapper) is abstracted by the sequence of outcomes
its wait(0.1) polling produces: at each iteration the kill switch event is
either set or not, and wait either raises TimeoutExpired (none) or returns
the returncode. -/

structure PollStep where
  killSwitch : Bool
  result : Option Int
deriving DecidableEq

inductive WaitOutcome where
  /-- The finally clause found the kill switch set without force: the
  subprocess is killed and FlaggedSnapshotError is raised. -/
  | flaggedKill
  /-- wait returned this returncode and the kill switch did not fire. -/
  | exited (rc : Int)
  /-- The modelled poll trace ended with the subprocess still running. -/
  | hung
deriving DecidableEq

/-- The while True polling loop (cycle.py lines 226 to 247). wait runs
first; the finally clause then checks the kill switch, and its raise
preempts both the continue and the break. -/
def runWaitLoop (force : Bool) : List PollStep → WaitOutcome
  | [] => .hung
  | p :: rest =>
    if p.killSwitch ∧ force = false then .flaggedKill
    else
      match p.result with
      | none => runWaitLoop force rest
      | some rc => .exited rc

/-- Result record of one create_new_snapshot call. -/
structure CNSOut where
  /-- A FlaggedSnapshotError propagated to the caller. -/
  flaggedRaised : Bool
  /-- A RuntimeError for a positive rsync returncode, with the code. -/
  runtimeRaised : Option Int
  /-- engine.process.kill() was invoked. -/
  killed : Bool
  /-- Final state of the snapshot being synced; none when the call aborted
  before selecting or creating one. -/
  snap : Option Snap
  /-- The poll trace ran out before the subprocess exited. -/
  hung : Bool
deriving DecidableEq

/-- The guard at the top of create_new_snapshot (cycle.py lines 191 to
197): a flagged head snapshot without force raises FlaggedSnapshotError
before any transfer starts. -/
def earlyFlag (snaps : List Snap) (force : Bool) : Bool :=
  match snaps with
  | head :: _ => head.status = .flagged && force = false
  | [] => false

/-- The sync phase shared by the resume and fresh branches: run the wait
loop; on flaggedKill, kill the subprocess, set the snapshot status to
flagged and raise FlaggedSnapshotError; on exit, raise RuntimeError for a
positive returncode, otherwise set the status to complete (the timestamp
is then set to the current time, which the embedding does not track). -/
def runSync (s : Snap) (force : Bool) (polls : List PollStep) : CNSOut :=
  match runWaitLoop force polls with
  | .flaggedKill =>
    { flaggedRaised := true, runtimeRaised := none, killed := true,
      snap := some { s with status := .flagged }, hung := false }
  | .exited rc =>
    if rc > 0 then
      { flaggedRaised := false, runtimeRaised := some rc, killed := false,
        snap := some s, hung := false }
    else
      { flaggedRaised := false, runtimeRaised := none, killed := false,
        snap := some { s with status := .complete }, hung := false }
  | .hung =>
    { flaggedRaised := false, runtimeRaised := none, killed := false,
      snap := some s, hung := true }

/-- A fresh snapshot as the else branch builds it: a wip placeholder,
mkdir (void to blank), then status syncing. -/
def freshSnap (intv : String) : Snap := ⟨intv, none, .syncing⟩

/-- Cycle.create_new_snapshot: flagged head without force raises
immediately; a syncing or flagged head is resumed; otherwise a fresh
snapshot is created and synced. -/
def createNewSnapshot (snaps : List Snap) (intv : String) (force : Bool)
    (polls : List PollStep) : CNSOut :=
  match snaps with
  | head :: _ =>
    if head.status = .flagged ∧ force = false then
      { flaggedRaised := true, runtimeRaised := none, killed := false,
        snap := none, hung := false }
    else if head.status = .syncing ∨ head.status = .flagged then
      runSync head force polls
    else
      runSync (freshSnap intv) force polls
  | [] => runSync (freshSnap intv) force polls

/-! ## Path handling, from snapshot.py lines 105 to 156.
Snapshot.from_path splits a path with os.path.dirname, os.path.basename
and str.split on the dot; the path property rebuilds it with os.path.join.
Paths are ASCII character lists. -/

/-- posixpath.split: cut after the last slash; the head keeps its
trailing slashes only when it consists of nothing but slashes. -/
def splitPath (p : List Char) : List Char × List Char :=
  let r := p.reverse
  let tailRev := r.takeWhile (fun c => c ≠ '/')
  let headRaw := (r.dropWhile (fun c => c ≠ '/')).reverse
  let head :=
    if headRaw = [] ∨ headRaw.all (fun c => c = '/') then headRaw
    else (headRaw.reverse.dropWhile (fun c => c = '/')).reverse
  (head, tailRev.reverse)

/-- posixpath.join for two components: an absolute second component wins;
otherwise a slash is inserted unless the first component is empty or
already ends with a slash. -/
def joinPath (a b : List Char) : List Char :=
  if b.head? = some '/' then b
  else if a = [] ∨ a.getLast? = some '/' then a ++ b
  else a ++ '/' :: b

/-- str.split on the dot character: every maximal dot-free run, in order;
the empty string yields one empty part. -/
def splitOnDot : List Char → List (List Char)
  | [] => [[]]
  | c :: rest =>
    if c = '.' then [] :: splitOnDot rest
    else
      match splitOnDot rest with
      | h :: t => (c :: h) :: t
      | [] => [[c]]

/-! ## The timestamp format, snapshot.py line 101: "%Y-%m-%dT%H:%M".
A datetime.datetime truncated to the fields the format mentions. -/

structure DT where
  year : Nat
  month : Nat
  day : Nat
  hour : Nat
  minute : Nat
deriving DecidableEq

def isLeap (y : Nat) : Bool :=
  y % 4 = 0 && (y % 100 ≠ 0 || y % 400 = 0)

def daysInMonth (y m : Nat) : Nat :=
  if m = 2 then (if isLeap y then 29 else 28)
  else if m = 4 ∨ m = 6 ∨ m = 9 ∨ m = 11 then 30
  else 31

/-- The bounds the datetime constructor enforces on the parsed fields
(MINYEAR = 1; four format digits cap the year at 9999; hour and minute
ranges come from the format regex itself). -/
def validDT (t : DT) : Bool :=
  1 ≤ t.year && t.year ≤ 9999 && 1 ≤ t.month && t.month ≤ 12 &&
  1 ≤ t.day && t.day ≤ daysInMonth t.year t.month &&
  t.hour ≤ 23 && t.minute ≤ 59

/-- Two-digit zero-padded field of strftime. -/
def pad2 (n : Nat) : List Char := [digitChar (n / 10 % 10), digitChar (n % 10)]

/-- The year as strftime prints it for years 1000 to 9999: four decimal
digits. -/
def pad4 (n : Nat) : List Char :=
  [digitChar (n / 1000 % 10), digitChar (n / 100 % 10),
   digitChar (n / 10 % 10), digitChar (n % 10)]

/-- datetime.strftime("%Y-%m-%dT%H:%M"). -/
def strftimeYmdHM (t : DT) : List Char :=
  pad4 t.year ++ '-' :: (pad2 t.month ++ '-' :: (pad2 t.day ++
    'T' :: (pad2 t.hour ++ ':' :: pad2 t.minute)))

/-- The %Y field: the _strptime table compiles it to four digit
characters, exactly, so the year value is 0..9999. -/
def parseYear4 : List Char → Option (Nat × List Char)
  | c1 :: c2 :: c3 :: c4 :: rest =>
    if isDigitChar c1 && isDigitChar c2 && isDigitChar c3 && isDigitChar c4 then
      some (((digitVal c1 * 10 + digitVal c2) * 10 + digitVal c3) * 10 + digitVal c4, rest)
    else none
  | _ => none

/-- A strptime numeric field whose regex alternation accepts a two-digit
form with value in lo2..hi2 and otherwise a one-digit form with value in
lo1..hi1; the next pattern element is a non-digit literal (or the end), so
the alternation is deterministic: take two digits when their value fits,
else one. -/
def parseField2 (lo2 hi2 lo1 hi1 : Nat) : List Char → Option (Nat × List Char)
  | c1 :: c2 :: rest =>
    if isDigitChar c1 && isDigitChar c2 &&
        decide (lo2 ≤ 10 * digitVal c1 + digitVal c2) &&
        decide (10 * digitVal c1 + digitVal c2 ≤ hi2) then
      some (10 * digitVal c1 + digitVal c2, rest)
    else if isDigitChar c1 && decide (lo1 ≤ digitVal c1) && decide (digitVal c1 ≤ hi1) then
      some (digitVal c1, c2 :: rest)
    else none
  | [c1] =>
    if isDigitChar c1 && decide (lo1 ≤ digitVal c1) && decide (digitVal c1 ≤ hi1) then
      some (digitVal c1, [])
    else none
  | [] => none

/-- The %d field: the _strptime table compiles it to the alternation of
3 followed by 0 or 1, 1 or 2 followed by any digit, 0 followed by 1..9,
a bare digit 1..9, and a space followed by a digit 1..9 (the ANSI C
space-padded day form). The element after %d in the format is a non-digit
literal, so the alternation is deterministic: a two-digit day 01..31,
else a one-digit day 1..9, else a space and a digit 1..9. -/
def parseDay : List Char → Option (Nat × List Char)
  | c1 :: c2 :: rest =>
    if isDigitChar c1 && isDigitChar c2 &&
        decide (1 ≤ 10 * digitVal c1 + digitVal c2) &&
        decide (10 * digitVal c1 + digitVal c2 ≤ 31) then
      some (10 * digitVal c1 + digitVal c2, rest)
    else if isDigitChar c1 && decide (1 ≤ digitVal c1) && decide (digitVal c1 ≤ 9) then
      some (digitVal c1, c2 :: rest)
    else if c1 = ' ' && isDigitChar c2 && decide (1 ≤ digitVal c2) &&
        decide (digitVal c2 ≤ 9) then
      some (digitVal c2, rest)
    else none
  | [c1] =>
    if isDigitChar c1 && decide (1 ≤ digitVal c1) && decide (digitVal c1 ≤ 9) then
      some (digitVal c1, [])
    else none
  | [] => none

/-- A literal character of the format; strptime compiles its regex with
IGNORECASE, so the letter T also matches t. -/
def expectChar (a : Char) : List Char → Option (List Char)
  | c :: rest => if c = a ∨ (a = 'T' ∧ c = 't') then some rest else none
  | [] => none

/-- datetime.strptime(s, "%Y-%m-%dT%H:%M"): the regex built by _strptime
(%Y exactly four digits; %m month 1..12 with an optional leading zero;
%d day 01..31 two-digit, 1..9 one-digit, or space-padded; %H hour 0..23
and %M minute 0..59, each with an optional leading zero), a full match
(any unconverted trailing data raises ValueError), then the datetime
constructor check that the day exists in the month and the year is at
least MINYEAR = 1. -/
def strptimeYmdHM (s : List Char) : Option DT :=
  (parseYear4 s).bind (fun py =>
  (expectChar '-' py.2).bind (fun s2 =>
  (parseField2 1 12 1 9 s2).bind (fun p1 =>
  (expectChar '-' p1.2).bind (fun s4 =>
  (parseDay s4).bind (fun p2 =>
  (expectChar 'T' p2.2).bind (fun s6 =>
  (parseField2 0 23 0 9 s6).bind (fun p3 =>
  (expectChar ':' p3.2).bind (fun s8 =>
  (parseField2 0 59 0 9 s8).bind (fun p4 =>
    if p4.2 = [] ∧ 1 ≤ py.1 ∧ p2.1 ≤ daysInMonth py.1 p1.1 then
      some ⟨py.1, p1.1, p2.1, p3.1, p4.1⟩
    else none)))))))))

/-- The identity of a snapshot as from_path constructs it: directory,
interval, and optional timestamp (none for the wip placeholder). -/
structure SnapId where
  dir : List Char
  interval : List Char
  timestamp : Option DT
deriving DecidableEq

inductive PyErr where
  | valueError
deriving DecidableEq

def wipChars : List Char := ['w', 'i', 'p']

/-- Snapshot.from_path (snapshot.py lines 105 to 116 with the constructor
lines 133 to 141): dirname and basename of the path, the basename split on
the dot into exactly two parts (any other arity raises ValueError from the
unpacking), the wip suffix mapped to a None timestamp, any other suffix
parsed with strptime (ValueError on failure). -/
def fromPath (p : List Char) : Except PyErr SnapId :=
  let d := (splitPath p).1
  match splitOnDot (splitPath p).2 with
  | [intv, st] =>
    if st = wipChars then .ok ⟨d, intv, none⟩
    else
      match strptimeYmdHM st with
      | some t => .ok ⟨d, intv, some t⟩
      | none => .error .valueError
  | _ => .error .valueError

/-- The stimestamp property: wip for a None timestamp, otherwise the
strftime rendering. -/
def stimestampChars : Option DT → List Char
  | none => wipChars
  | some t => strftimeYmdHM t

/-- The path property (snapshot.py lines 150 to 156):
os.path.join(dir, interval + dot + stimestamp). -/
def pathOf (s : SnapId) : List Char :=
  joinPath s.dir (s.interval ++ '.' :: stimestampChars s.timestamp)

/-- The status the setter actually stores: line 279 of snapshot.py turns a
syncing request on a flagged snapshot back into flagged. -/
def newStatusOf (s : SnapFileState) (new : Status) : Status :=
  if s.status = .flagged ∧ new = .syncing then .flagged else new

/-- Well-formedness of an optional timestamp for the round-trip statement:
absent (wip), or a datetime the constructor accepts whose year prints as
four digits. -/
def tsOk : Option DT → Bool
  | none => true
  | some t => validDT t && decide (1000 ≤ t.year)

end Backup

/-! # Theorems -/

namespace Backup

/-! ## Helper lemmas about the status setter -/

theorem statusFileCheck_not_dirty {s : SnapFileState} (h : s.status.isDirty = false) :
    statusFileCheck s = .ok () := by
  simp [statusFileCheck, h]

theorem setStatus_eq {s : SnapFileState} {new : Status}
    (hchk : statusFileCheck s = .ok ())
    (hdel : ¬(s.status = .deleted ∧ new ≠ .deleted)) :
    setStatus s new =
      .ok { status := newStatusOf s new,
            statusfile :=
              if (newStatusOf s new).isDirty then some (statusFileBody (newStatusOf s new))
              else none,
            locked := s.locked } := by
  unfold setStatus newStatusOf
  rw [hchk]
  simp only [Bind.bind, Except.bind]
  rw [if_neg hdel]
  split <;> split <;> simp_all

theorem setStatus_deleted_ne {s : SnapFileState} {new : Status}
    (h : s.status = .deleted) (hne : new ≠ .deleted) :
    setStatus s new = .error .runtimeError := by
  have hchk : statusFileCheck s = .ok () := statusFileCheck_not_dirty (by rw [h]; rfl)
  unfold setStatus
  rw [hchk]
  simp only [Bind.bind, Except.bind]
  rw [if_pos ⟨h, hne⟩]

theorem setStatusTry_deleted {s : SnapFileState} (h : s.status = .deleted) (new : Status) :
    (setStatusTry s new).status = .deleted := by
  unfold setStatusTry
  by_cases hne : new = Status.deleted
  · subst hne
    rw [setStatus_eq (statusFileCheck_not_dirty (by rw [h]; rfl)) (by simp)]
    simp [newStatusOf, h]
  · rw [setStatus_deleted_ne h hne]
    exact h

theorem applySeq_deleted {s : SnapFileState} (h : s.status = .deleted) (l : List Status) :
    (applySeq s l).status = .deleted := by
  induction l generalizing s with
  | nil => exact h
  | cons a t ih =>
    unfold applySeq at *
    simp only [List.foldl_cons]
    exact ih (setStatusTry_deleted h a)

/-! ## Claim C5 -/

/-- C5, counterexample. The claim states that a transition into syncing,
flagged or deleting while the lock is not held raises a fatal error and
leaves the in-memory status and the status file unchanged. On the code of
snapshot.py the setter performs no lock check: on an unlocked blank
snapshot, setting syncing succeeds, updates the in-memory status and
writes 3 into the status file. -/
theorem c5_counterexample :
    setStatus ⟨Status.blank, none, false⟩ Status.syncing =
      .ok ⟨Status.syncing, some ['3'], false⟩ := rfl

/-- C5, amended. Entering syncing, flagged or deleting writes the numeric
state into the status file and entering any other state removes the file,
exactly as claimed, but without any lock requirement: the setter of
snapshot.py succeeds for locked and unlocked snapshots alike (the locked
field is carried through untouched and appears in no hypothesis). The
preconditions are the ones the setter does enforce: the consistency check
of the status file passes and the snapshot is not deleted (unless deleted
is re-set). -/
theorem c5_status_setter_no_lock_check :
    ∀ (s : SnapFileState) (new : Status),
      statusFileCheck s = .ok () →
      ¬(s.status = .deleted ∧ new ≠ .deleted) →
      setStatus s new =
        .ok { status := newStatusOf s new,
              statusfile :=
                if (newStatusOf s new).isDirty then some (statusFileBody (newStatusOf s new))
                else none,
              locked := s.locked } :=
  fun _ _ hchk hdel => setStatus_eq hchk hdel

/-- C5, witness for the amended theorem: a locked complete snapshot enters
deleting, and the file body becomes the digit 6. -/
theorem c5_witness :
    setStatus ⟨Status.complete, none, true⟩ Status.deleting =
      .ok ⟨Status.deleting, some ['6'], true⟩ :=
  c5_status_setter_no_lock_check ⟨Status.complete, none, true⟩ Status.deleting rfl
    (by decide)

/-! ## Claim C6 -/

/-- C6: once a snapshot is deleted, any attempted transition to a status
other than deleted raises RuntimeError, re-setting deleted itself succeeds
(and merely removes the status file if present), and no sequence of setter
calls ever moves the status away from deleted. -/
theorem c6_deleted_is_final :
    ∀ (s : SnapFileState) (new : Status) (l : List Status),
      s.status = .deleted → new ≠ .deleted →
      setStatus s new = .error .runtimeError ∧
      setStatus s .deleted = .ok ⟨.deleted, none, s.locked⟩ ∧
      (applySeq s l).status = .deleted := by
  intro s new l h hne
  refine ⟨setStatus_deleted_ne h hne, ?_, applySeq_deleted h l⟩
  rw [setStatus_eq (statusFileCheck_not_dirty (by rw [h]; rfl)) (by simp)]
  simp [newStatusOf, h, Status.isDirty]

/-- C6, witness: the theorem applied to a concrete deleted snapshot, a
syncing attempt and a sequence of further attempts. -/
theorem c6_witness :
    setStatus ⟨Status.deleted, none, false⟩ Status.syncing = .error .runtimeError ∧
    setStatus ⟨Status.deleted, none, false⟩ Status.deleted =
      .ok ⟨Status.deleted, none, false⟩ ∧
    (applySeq ⟨Status.deleted, none, false⟩
      [Status.syncing, Status.complete, Status.deleted]).status = Status.deleted :=
  c6_deleted_is_final ⟨Status.deleted, none, false⟩ Status.syncing
    [Status.syncing, Status.complete, Status.deleted] rfl (by decide)

/-! ## Claim C7 -/

/-- C7: on a flagged snapshot (with the consistent on-disk file body 4),
setting syncing is a no-op that returns the state unchanged, so the file
keeps the flagged code; any sequence of syncing attempts leaves the state
fixed; and the flag clears when the transition to complete happens, which
also removes the status file. -/
theorem c7_flagged_resume_noop :
    ∀ (s : SnapFileState) (l : List Status),
      s.status = .flagged → s.statusfile = some ['4'] →
      (∀ x ∈ l, x = Status.syncing) →
      setStatus s .syncing = .ok s ∧
      applySeq s l = s ∧
      setStatus s .complete = .ok ⟨.complete, none, s.locked⟩ := by
  intro s l h1 h2 hl
  have hchk : statusFileCheck s = .ok () := by
    simp only [statusFileCheck, h1, h2]
    rfl
  have hsync : setStatus s .syncing = .ok s := by
    rw [setStatus_eq hchk (by simp [h1])]
    obtain ⟨st, f, lk⟩ := s
    simp only at h1 h2
    subst h1
    subst h2
    rfl
  refine ⟨hsync, ?_, ?_⟩
  · have hstep : setStatusTry s .syncing = s := by
      unfold setStatusTry
      rw [hsync]
    clear hchk hsync
    induction l with
    | nil => rfl
    | cons a t ih =>
      have ha : a = Status.syncing := hl a (List.mem_cons_self a t)
      unfold applySeq at *
      simp only [List.foldl_cons, ha, hstep]
      exact ih (fun x hx => hl x (List.mem_cons_of_mem a hx))
  · rw [setStatus_eq hchk (by simp [h1])]
    simp [newStatusOf, h1, Status.isDirty]

/-- C7, witness: a concrete flagged snapshot survives two syncing attempts
unchanged and then completes. -/
theorem c7_witness :
    setStatus ⟨Status.flagged, some ['4'], true⟩ Status.syncing =
      .ok ⟨Status.flagged, some ['4'], true⟩ ∧
    applySeq ⟨Status.flagged, some ['4'], true⟩ [Status.syncing, Status.syncing] =
      ⟨Status.flagged, some ['4'], true⟩ ∧
    setStatus ⟨Status.flagged, some ['4'], true⟩ Status.complete =
      .ok ⟨Status.complete, none, true⟩ :=
  c7_flagged_resume_noop ⟨Status.flagged, some ['4'], true⟩
    [Status.syncing, Status.syncing] rfl rfl (by decide)

/-! ## Claim C10 -/

theorem ofInt_value (s : Status) : Status.ofInt (s.value : Int) = some s := by
  cases s <;> rfl

theorem ofInt_eq_some {n : Int} {s : Status} (h : Status.ofInt n = some s) :
    n = (s.value : Int) := by
  unfold Status.ofInt at h
  split_ifs at h with h1 h2 h3 h4 h5 h6 h7 <;> simp_all <;>
    subst h <;> rfl

/-- C10, counterexample. The claim states that infer_status accepts exactly
the decimal strings 1 through 7 and raises ValueError on any other file
content; but Status(int(content)) in snapshot.py inherits the leniency of
Python int(), so the content 01 (not among those seven strings) is accepted
and decodes to void. -/
theorem c10_counterexample : readStatusFile ['0', '1'] = some Status.void := rfl

/-- C10, amended. The status file holds the 1-based ordinal of the Status
enum: the file body written for syncing is 3, for flagged 4, for deleting
6; decoding accepts precisely the contents whose Python int() value is the
ordinal of some status (1 through 7), which includes padded or signed
spellings of those numbers, and raises ValueError otherwise. The legacy
engine module numbers states from 0, with SYNCING = 2 and DELETING = 4, so
a legacy syncing marker 2 is misread by the new module as blank, and a new
syncing marker 3 means COMPLETE to the legacy table. -/
theorem c10_status_file_encoding :
    ∀ (c : List Char) (s : Status),
      (readStatusFile c = some s ↔ pyInt c = some (s.value : Int)) ∧
      statusFileBody .syncing = ['3'] ∧
      statusFileBody .flagged = ['4'] ∧
      statusFileBody .deleting = ['6'] ∧
      setStatus ⟨Status.blank, none, false⟩ Status.syncing =
        .ok ⟨Status.syncing, some ['3'], false⟩ ∧
      Engine.SYNCING = 2 ∧
      Engine.DELETING = 4 ∧
      readStatusFile [digitChar Engine.SYNCING] = some Status.blank ∧
      Engine.statusLookup Status.syncing.value = some "COMPLETE" := by
  intro c s
  refine ⟨⟨?_, ?_⟩, rfl, rfl, rfl, rfl, rfl, rfl, rfl, rfl⟩
  · intro h
    unfold readStatusFile at h
    cases hp : pyInt c with
    | none => rw [hp] at h; exact absurd h (by simp)
    | some n =>
      rw [hp] at h
      rw [ofInt_eq_some h]
  · intro h
    unfold readStatusFile
    rw [h]
    exact ofInt_value s

/-- C10, witness: the amended theorem at the canonical flagged body. -/
theorem c10_witness :
    (readStatusFile ['4'] = some Status.flagged ↔ pyInt ['4'] = some 4) ∧
    statusFileBody .syncing = ['3'] ∧
    statusFileBody .flagged = ['4'] ∧
    statusFileBody .deleting = ['6'] ∧
    setStatus ⟨Status.blank, none, false⟩ Status.syncing =
      .ok ⟨Status.syncing, some ['3'], false⟩ ∧
    Engine.SYNCING = 2 ∧
    Engine.DELETING = 4 ∧
    readStatusFile [digitChar Engine.SYNCING] = some Status.blank ∧
    Engine.statusLookup Status.syncing.value = some "COMPLETE" :=
  c10_status_file_encoding ['4'] Status.flagged

/-! ## Claim C1 -/

theorem acquire_ok_fields {s s1 : LockState} (h : acquire s = .ok s1) :
    s1.dirExists = true ∧ s1.myMarker = true := by
  unfold acquire at h
  split_ifs at h with h1 h2
  · injection h with h
    subst h
    exact ⟨h1, h2⟩
  · injection h with h
    subst h
    exact ⟨rfl, rfl⟩

theorem release_after_acquire {s s1 : LockState} (h : acquire s = .ok s1) :
    release s1 = .ok ⟨false, false⟩ := by
  obtain ⟨hd, hm⟩ := acquire_ok_fields h
  unfold release
  rw [hd, hm]
  rfl

/-- C1, counterexample. The claim states that when the scope is exited
because an exception propagates, the lock is left held (release is not
called). Lockable exit in locking.py calls release unconditionally,
ignoring the exception arguments: running a body that raises inside a
fresh lock ends with the exception propagated and the lock directory
removed, not left on disk. -/
theorem c1_counterexample :
    withLockable ⟨false, false⟩ (0 : Nat) (fun x => (x + 1, true)) =
      .raised ⟨false, false⟩ 1 := rfl

/-- C1, amended. Entering the scope acquires the lock, raising on failure;
exiting releases it unconditionally, on the normal path and on the
exception path alike, after which the exception (if any) propagates. (The
legacy context manager of the engine module Snapshot class does keep the
lock on the exception path, but Lockable, used by Snapshot and Cycle, does
not.) -/
theorem c1_scope_releases_on_every_path :
    ∀ {α : Type} (s : LockState) (x : α) (body : α → α × Bool),
      (∀ e, withLockable s x body = .lockError e ↔ acquire s = .error e) ∧
      (∀ s1, acquire s = .ok s1 →
        withLockable s x body =
          if (body x).2 then .raised ⟨false, false⟩ (body x).1
          else .ok ⟨false, false⟩ (body x).1) := by
  intro α s x body
  have hexit : ∀ s1, acquire s = .ok s1 →
      scopeExit s1 (body x) =
        if (body x).2 then ScopeResult.raised ⟨false, false⟩ (body x).1
        else ScopeResult.ok ⟨false, false⟩ (body x).1 := by
    intro s1 ha
    unfold scopeExit
    rw [release_after_acquire ha]
  constructor
  · intro e
    cases ha : acquire s with
    | error e2 => simp [withLockable, ha]
    | ok s1 =>
      simp only [withLockable, ha, hexit s1 ha]
      constructor
      · intro h
        by_cases hb : (body x).2 <;> simp [hb] at h
      · intro h
        exact absurd h (by simp)
  · intro s1 ha
    simp only [withLockable, ha, hexit s1 ha]

/-- C1, witness for the amended theorem: a normally returning body on a
fresh lock ends released. -/
theorem c1_witness :
    withLockable ⟨false, false⟩ (0 : Nat) (fun x => (x + 1, false)) =
      .ok ⟨false, false⟩ 1 := by
  have h := (c1_scope_releases_on_every_path ⟨false, false⟩ (0 : Nat)
    (fun x => (x + 1, false))).2 ⟨true, true⟩ rfl
  exact h

/-! ## Claim C2 -/

/-- C2, the failing input. The claim (like the repository test
test_feed_with_intermediary_empty_cycle, which drives purge with a
retention count of 0) reads the cutoff as the first index at which the
count of complete snapshots reaches maxnumber, which for maxnumber = 0 is
index 0, leaving at most 0 complete snapshots. The loop in cycle.py only
tests the count after having advanced past a snapshot, so purge(0) on a
single complete snapshot breaks with cutoff 1, deletes nothing, and keeps
one complete snapshot, violating the bound. -/
theorem c2_purge_zero_keeps_a_complete_snapshot :
    purgeNoOverflow [⟨"hourly", some 0, .complete⟩] 0 =
      .ok ([⟨"hourly", some 0, .complete⟩], []) ∧
    countComplete [⟨"hourly", some 0, .complete⟩] = 1 := by
  constructor <;> rfl

/-! ## Claim C4 -/

theorem runSync_cases (s0 : Snap) (force : Bool) (polls : List PollStep) :
    ((runSync s0 force polls).flaggedRaised = true ↔
      runWaitLoop force polls = .flaggedKill) ∧
    (runWaitLoop force polls = .flaggedKill →
      (runSync s0 force polls).killed = true ∧
      ∃ s2, (runSync s0 force polls).snap = some s2 ∧ s2.status = .flagged) ∧
    (∀ rc, runWaitLoop force polls = .exited rc →
      (runSync s0 force polls).flaggedRaised = false) := by
  cases hw : runWaitLoop force polls with
  | flaggedKill =>
    refine ⟨by simp [runSync, hw], fun _ => ⟨by simp [runSync, hw], ?_⟩, by simp [hw]⟩
    exact ⟨{ s0 with status := .flagged }, by simp [runSync, hw], rfl⟩
  | exited rc =>
    refine ⟨?_, by simp [hw], ?_⟩
    · simp only [runSync, hw]
      split <;> simp
    · intro rc2 h
      simp only [runSync, hw]
      split <;> simp
  | hung => exact ⟨by simp [runSync, hw], by simp [hw], by simp [hw]⟩

theorem earlyFlag_cons {h : Snap} {t : List Snap} {force : Bool} :
    earlyFlag (h :: t) force = true ↔ (h.status = .flagged ∧ force = false) := by
  simp [earlyFlag]

/-- C4: create_new_snapshot raises FlaggedSnapshotError in exactly two
cases, namely when the newest snapshot is flagged and force is off (before
any transfer), and when the wait-poll loop finds the kill switch set while
force is off; in the latter case the subprocess is killed and the snapshot
status is set to flagged before the error is raised; and when the wait
loop ends with the subprocess exited and no kill, no flagged error is
raised. -/
theorem c4_create_new_snapshot_flagged_cases :
    ∀ (snaps : List Snap) (intv : String) (force : Bool) (polls : List PollStep),
      ((createNewSnapshot snaps intv force polls).flaggedRaised = true ↔
        (earlyFlag snaps force = true ∨ runWaitLoop force polls = .flaggedKill)) ∧
      (earlyFlag snaps force = false → runWaitLoop force polls = .flaggedKill →
        (createNewSnapshot snaps intv force polls).killed = true ∧
        ∃ s2, (createNewSnapshot snaps intv force polls).snap = some s2 ∧
          s2.status = .flagged) ∧
      (earlyFlag snaps force = false →
        ∀ rc, runWaitLoop force polls = .exited rc →
        (createNewSnapshot snaps intv force polls).flaggedRaised = false) := by
  intro snaps intv force polls
  cases snaps with
  | nil =>
    have he : earlyFlag ([] : List Snap) force = false := rfl
    have hr := runSync_cases (freshSnap intv) force polls
    rw [show createNewSnapshot [] intv force polls = runSync (freshSnap intv) force polls
      from rfl]
    refine ⟨?_, fun _ => hr.2.1, fun _ => hr.2.2⟩
    rw [he]
    simp only [Bool.false_eq_true, false_or]
    exact hr.1
  | cons head t =>
    by_cases hf : head.status = .flagged ∧ force = false
    · have he : earlyFlag (head :: t) force = true := earlyFlag_cons.mpr hf
      have hc : createNewSnapshot (head :: t) intv force polls =
          { flaggedRaised := true, runtimeRaised := none, killed := false,
            snap := none, hung := false } := by
        simp only [createNewSnapshot]
        rw [if_pos hf]
      rw [hc, he]
      refine ⟨by simp, by simp, by simp⟩
    · have he : earlyFlag (head :: t) force = false := by
        rcases Bool.eq_false_or_eq_true (earlyFlag (head :: t) force) with h | h
        · exact absurd (earlyFlag_cons.mp h) hf
        · exact h
      have hrun : ∃ s0, createNewSnapshot (head :: t) intv force polls =
          runSync s0 force polls := by
        simp only [createNewSnapshot]
        rw [if_neg hf]
        by_cases hr2 : head.status = .syncing ∨ head.status = .flagged
        · exact ⟨head, by rw [if_pos hr2]⟩
        · exact ⟨freshSnap intv, by rw [if_neg hr2]⟩
      obtain ⟨s0, hs0⟩ := hrun
      have hr := runSync_cases s0 force polls
      rw [hs0, he]
      refine ⟨?_, fun _ => hr.2.1, fun _ => hr.2.2⟩
      simp only [Bool.false_eq_true, false_or]
      exact hr.1

/-- C4, witness: on an empty cycle with force off and a poll trace whose
first iteration finds the kill switch set, the call kills the subprocess
and leaves the snapshot flagged. -/
theorem c4_witness :
    (createNewSnapshot [] "hourly" false [⟨true, none⟩]).killed = true ∧
    ∃ s2, (createNewSnapshot [] "hourly" false [⟨true, none⟩]).snap = some s2 ∧
      s2.status = .flagged :=
  (c4_create_new_snapshot_flagged_cases [] "hourly" false [⟨true, none⟩]).2.1 rfl rfl

/-! ## Claim C3 -/

theorem feedCond_cons {td : Int} {d : Snap} {rest : List Snap} {c : Snap} :
    feedCond td (d :: rest) c =
      (match c.timestamp, d.timestamp with
       | some tc, some td2 => .ok (decide (tc - td2 ≥ td))
       | _, _ => .error .typeError) := by
  unfold feedCond
  rw [if_neg (fun hand => List.cons_ne_nil d rest hand.2)]

theorem feedCond_preserves {td : Int} (intv : String) {dest : List Snap} {c : Snap}
    (h : feedCond td dest c = .ok true) (hs : spaced td dest = true) :
    spaced td ({ c with interval := intv } :: dest) = true := by
  cases dest with
  | nil => rfl
  | cons d rest =>
    rw [feedCond_cons] at h
    have hgap : tsGap td { c with interval := intv } d = true := by
      unfold tsGap
      cases hc : c.timestamp with
      | none => rw [hc] at h; cases d.timestamp <;> exact absurd h (by simp)
      | some tc =>
        cases hd : d.timestamp with
        | none => rw [hc, hd] at h; exact absurd h (by simp)
        | some td2 =>
          rw [hc, hd] at h
          injection h
    show (tsGap td { c with interval := intv } d && spaced td (d :: rest)) = true
    rw [Bool.and_eq_true]
    exact ⟨hgap, hs⟩

theorem scanPass_preserves {td : Int} {intv : String} {dest : List Snap} :
    ∀ {cands d2 c2 : List Snap},
      scanPass td intv dest cands = .ok (some (d2, c2)) →
      spaced td dest = true → spaced td d2 = true := by
  intro cands
  induction cands with
  | nil =>
    intro d2 c2 h _
    exact absurd h (by simp [scanPass])
  | cons c rest ih =>
    intro d2 c2 h hs
    rw [scanPass] at h
    split at h
    · exact Except.noConfusion h
    · injection h with h
      injection h with h
      injection h with h1 h2
      rw [← h1]
      rename_i heq
      exact feedCond_preserves intv heq hs
    · split at h
      · exact Except.noConfusion h
      · injection h with h
        exact Option.noConfusion h
      · injection h with h
        injection h with h
        injection h with h1 h2
        rw [← h1]
        rename_i p heq
        exact ih (heq.trans (congrArg (fun q => Except.ok (some q)) (Prod.mk.eta).symm)) hs

theorem feedLoop_preserves {td : Int} {intv : String} :
    ∀ (fuel : Nat) {dest cands d2 c2 : List Snap},
      feedLoop td intv fuel dest cands = .ok (d2, c2) →
      spaced td dest = true → spaced td d2 = true := by
  intro fuel
  induction fuel with
  | zero =>
    intro dest cands d2 c2 h hs
    injection h with h
    injection h with h1 h2
    rw [← h1]
    exact hs
  | succ n ih =>
    intro dest cands d2 c2 h hs
    rw [feedLoop] at h
    split at h
    · exact Except.noConfusion h
    · injection h with h
      injection h with h1 h2
      rw [← h1]
      exact hs
    · rename_i dest2 cands2 heq
      exact ih h (scanPass_preserves heq hs)

theorem deleteAll_status :
    ∀ {l r : List Snap}, deleteAll l = .ok r → ∀ x ∈ r, x.status = Status.deleted := by
  intro l
  induction l with
  | nil =>
    intro r h x hx
    injection h with h
    rw [← h] at hx
    exact absurd hx (by simp)
  | cons s rest ih =>
    intro r h x hx
    rw [deleteAll] at h
    split_ifs at h with h1
    split at h
    · exact Except.noConfusion h
    · rename_i r2 hrest
      injection h with h
      rw [← h] at hx
      rcases List.mem_cons.mp hx with h2 | h2
      · rw [h2]
      · exact ih hrest x h2

/-- C3, counterexample. The claim states that a candidate is inserted
exactly when the destination cycle is empty or the spacing condition
holds. In cycle.py the condition is (status is complete and the list is
empty) or (timestamp difference at least timedelta); feeding a single
syncing candidate to an empty cycle therefore falls through to the second
disjunct, which evaluates self.snapshots[0] on the empty list and raises
IndexError instead of inserting. -/
theorem c3_counterexample :
    feed 1440 "daily" [] [⟨"hourly", some 0, .syncing⟩] =
      .error .indexError := rfl

/-- C3, amended. feed repeatedly scans the candidates from oldest to
newest and inserts a candidate (rewriting its interval, so it is renamed
on disk, prepending it to the destination list and removing it from the
candidates) exactly when the candidate is complete and the cycle is empty,
or the cycle is non-empty and the timestamp of the candidate is at least
the configured timedelta newer than the newest kept snapshot; with an
empty cycle and a non-complete candidate the scan instead raises an
IndexError. The scan repeats until a full pass inserts nothing, and when
feed returns without raising, every candidate never inserted has been
deleted, and, provided the destination list already satisfied the spacing
invariant, every adjacent pair of the resulting list differs in timestamp
by at least the configured timedelta. -/
theorem c3_feed_spacing :
    ∀ (td : Int) (intv : String) (dest cands d2 dels : List Snap),
      spaced td dest = true →
      feed td intv dest cands = .ok (d2, dels) →
      spaced td d2 = true ∧ ∀ x ∈ dels, x.status = Status.deleted := by
  intro td intv dest cands d2 dels hs hf
  rw [feed] at hf
  cases hloop : feedLoop td intv (cands.length + 1) dest cands.reverse with
  | error e => rw [hloop] at hf; exact absurd hf (by simp [Bind.bind, Except.bind])
  | ok r =>
    rw [hloop] at hf
    simp only [Bind.bind, Except.bind] at hf
    cases hdel : deleteAll r.2.reverse with
    | error e => rw [hdel] at hf; exact absurd hf (by simp)
    | ok dl =>
      rw [hdel] at hf
      injection hf with hf
      injection hf with h1 h2
      subst h1
      subst h2
      exact ⟨feedLoop_preserves (cands.length + 1)
        (hloop.trans (congrArg Except.ok Prod.mk.eta.symm)) hs,
        deleteAll_status hdel⟩

/-- C3, witness for the amended theorem: feeding three complete hourly
candidates into an empty daily cycle inserts the oldest, deletes the two
that violate the spacing, and the result is spaced. -/
theorem c3_witness :
    spaced 1440 [⟨"daily", some 60, .complete⟩] = true ∧
    ∀ x ∈ [(⟨"hourly", some 180, .deleted⟩ : Snap), ⟨"hourly", some 120, .deleted⟩],
      x.status = Status.deleted :=
  c3_feed_spacing 1440 "daily" []
    [⟨"hourly", some 180, .complete⟩, ⟨"hourly", some 120, .complete⟩,
     ⟨"hourly", some 60, .complete⟩]
    [⟨"daily", some 60, .complete⟩]
    [⟨"hourly", some 180, .deleted⟩, ⟨"hourly", some 120, .deleted⟩]
    rfl rfl

/-! ## Digit arithmetic helpers for the timestamp format -/

theorem isDigitChar_digitChar {n : Nat} (h : n < 10) :
    isDigitChar (digitChar n) = true := by
  interval_cases n <;> decide

theorem digitVal_digitChar {n : Nat} (h : n < 10) : digitVal (digitChar n) = n := by
  interval_cases n <;> decide

theorem digitChar_ne_special {n : Nat} (h : n < 10) :
    digitChar n ≠ '.' ∧ digitChar n ≠ '/' ∧ digitChar n ≠ 'w' := by
  interval_cases n <;> exact ⟨by decide, by decide, by decide⟩

theorem parseYear4_pad4 {y : Nat} (rest : List Char) (hy : y ≤ 9999) :
    parseYear4 (pad4 y ++ rest) = some (y, rest) := by
  have h1 : y / 1000 % 10 < 10 := Nat.mod_lt _ (by norm_num)
  have h2 : y / 100 % 10 < 10 := Nat.mod_lt _ (by norm_num)
  have h3 : y / 10 % 10 < 10 := Nat.mod_lt _ (by norm_num)
  have h4 : y % 10 < 10 := Nat.mod_lt _ (by norm_num)
  show parseYear4 (digitChar (y / 1000 % 10) :: digitChar (y / 100 % 10) ::
    digitChar (y / 10 % 10) :: digitChar (y % 10) :: rest) = some (y, rest)
  simp only [parseYear4]
  rw [isDigitChar_digitChar h1, isDigitChar_digitChar h2, isDigitChar_digitChar h3,
    isDigitChar_digitChar h4, digitVal_digitChar h1, digitVal_digitChar h2,
    digitVal_digitChar h3, digitVal_digitChar h4]
  rw [if_pos (by simp)]
  congr 2
  omega

theorem parseDay_pad2 {d : Nat} (rest : List Char) (h1 : 1 ≤ d) (h31 : d ≤ 31) :
    parseDay (pad2 d ++ rest) = some (d, rest) := by
  have ha : d / 10 % 10 < 10 := Nat.mod_lt _ (by norm_num)
  have hb : d % 10 < 10 := Nat.mod_lt _ (by norm_num)
  show parseDay (digitChar (d / 10 % 10) :: digitChar (d % 10) :: rest) = some (d, rest)
  simp only [parseDay]
  rw [isDigitChar_digitChar ha, isDigitChar_digitChar hb,
    digitVal_digitChar ha, digitVal_digitChar hb]
  have hv : 10 * (d / 10 % 10) + d % 10 = d := by omega
  rw [hv]
  rw [if_pos (by simp [h1, h31])]

theorem parseField2_pad2 {lo2 hi2 lo1 hi1 n : Nat} (rest : List Char)
    (hn : n < 100) (hlo : lo2 ≤ n) (hhi : n ≤ hi2) :
    parseField2 lo2 hi2 lo1 hi1 (pad2 n ++ rest) = some (n, rest) := by
  have ha : n / 10 % 10 < 10 := Nat.mod_lt _ (by norm_num)
  have hb : n % 10 < 10 := Nat.mod_lt _ (by norm_num)
  show parseField2 lo2 hi2 lo1 hi1 (digitChar (n / 10 % 10) :: digitChar (n % 10) :: rest) =
    some (n, rest)
  simp only [parseField2]
  rw [isDigitChar_digitChar ha, isDigitChar_digitChar hb,
    digitVal_digitChar ha, digitVal_digitChar hb]
  have hv : 10 * (n / 10 % 10) + n % 10 = n := by omega
  rw [hv]
  rw [if_pos (by simp [hlo, hhi])]

theorem expectChar_self (a : Char) (s : List Char) : expectChar a (a :: s) = some s := by
  simp [expectChar]

theorem daysInMonth_le_31 (y m : Nat) : daysInMonth y m ≤ 31 := by
  unfold daysInMonth
  split_ifs <;> norm_num

/-- strptime inverts strftime on every datetime with a four-digit year. -/
theorem strptime_strftime {t : DT} (hv : validDT t = true) (hy : 1000 ≤ t.year) :
    strptimeYmdHM (strftimeYmdHM t) = some t := by
  simp only [validDT, Bool.and_eq_true, decide_eq_true_eq] at hv
  obtain ⟨⟨⟨⟨⟨⟨⟨hy1, hy2⟩, hm1⟩, hm2⟩, hd1⟩, hd2⟩, hh⟩, hmin⟩ := hv
  have hpm : parseField2 1 12 1 9
      (pad2 t.month ++ '-' :: (pad2 t.day ++ 'T' :: (pad2 t.hour ++ ':' :: pad2 t.minute))) =
      some (t.month, '-' :: (pad2 t.day ++ 'T' :: (pad2 t.hour ++ ':' :: pad2 t.minute))) :=
    parseField2_pad2 _ (by omega) hm1 hm2
  have hph : parseField2 0 23 0 9 (pad2 t.hour ++ ':' :: pad2 t.minute) =
      some (t.hour, ':' :: pad2 t.minute) :=
    parseField2_pad2 _ (by omega) (Nat.zero_le _) hh
  have hpmin : parseField2 0 59 0 9 (pad2 t.minute ++ ([] : List Char)) =
      some (t.minute, []) :=
    parseField2_pad2 _ (by omega) (Nat.zero_le _) hmin
  have hpmin2 : parseField2 0 59 0 9 (pad2 t.minute) = some (t.minute, []) := by
    rw [← List.append_nil (pad2 t.minute)]
    exact hpmin
  have hpy : parseYear4 (pad4 t.year ++ '-' :: (pad2 t.month ++ '-' ::
      (pad2 t.day ++ 'T' :: (pad2 t.hour ++ ':' :: pad2 t.minute)))) =
      some (t.year, '-' :: (pad2 t.month ++ '-' ::
        (pad2 t.day ++ 'T' :: (pad2 t.hour ++ ':' :: pad2 t.minute)))) :=
    parseYear4_pad4 _ hy2
  have hpd : parseDay (pad2 t.day ++ 'T' :: (pad2 t.hour ++ ':' :: pad2 t.minute)) =
      some (t.day, 'T' :: (pad2 t.hour ++ ':' :: pad2 t.minute)) :=
    parseDay_pad2 _ hd1 (le_trans hd2 (daysInMonth_le_31 _ _))
  unfold strftimeYmdHM
  simp only [strptimeYmdHM, hpy, expectChar_self, Option.bind, hpm, hpd, hph, hpmin2]
  rw [if_pos ⟨trivial, by omega, hd2⟩]

/-! ## posixpath split and join on well-formed snapshot paths -/

theorem takeWhile_append_of_all {p : Char → Bool} :
    ∀ (l r : List Char), (∀ c ∈ l, p c = true) →
      (l ++ r).takeWhile p = l ++ r.takeWhile p := by
  intro l r h
  induction l with
  | nil => rfl
  | cons c t ih =>
    have hc : p c = true := h c (List.mem_cons_self c t)
    rw [List.cons_append, List.takeWhile_cons_of_pos hc,
      ih (fun x hx => h x (List.mem_cons_of_mem c hx))]
    rfl

theorem dropWhile_append_of_all {p : Char → Bool} :
    ∀ (l r : List Char), (∀ c ∈ l, p c = true) → r.head? ≠ none →
      (∀ c, r.head? = some c → p c = false) →
      (l ++ r).dropWhile p = r.dropWhile p := by
  intro l r h _ _
  induction l with
  | nil => rfl
  | cons c t ih =>
    have hc : p c = true := h c (List.mem_cons_self c t)
    rw [List.cons_append, List.dropWhile_cons_of_pos hc,
      ih (fun x hx => h x (List.mem_cons_of_mem c hx))]

theorem splitPath_append {dir base : List Char}
    (hb : ∀ c ∈ base, c ≠ '/')
    (hd : dir = [] ∨ dir.getLast? ≠ some '/') :
    splitPath (dir ++ '/' :: base) = (if dir = [] then ['/'] else dir, base) := by
  have hrev : (dir ++ '/' :: base).reverse = base.reverse ++ '/' :: dir.reverse := by
    rw [List.reverse_append, List.reverse_cons, List.append_assoc]
    rfl
  have hball : ∀ c ∈ base.reverse, (fun c : Char => decide ¬(c = '/')) c = true := by
    intro c hc
    exact decide_eq_true (hb c (List.mem_reverse.mp hc))
  have ht : List.takeWhile (fun c : Char => decide ¬(c = '/'))
      (base.reverse ++ '/' :: dir.reverse) = base.reverse := by
    rw [takeWhile_append_of_all _ _ hball, List.takeWhile_cons_of_neg (by decide),
      List.append_nil]
  have hdp : List.dropWhile (fun c : Char => decide ¬(c = '/'))
      (base.reverse ++ '/' :: dir.reverse) = '/' :: dir.reverse := by
    have hh : ∀ c : Char, (('/' :: dir.reverse : List Char)).head? = some c →
        (fun c : Char => decide ¬(c = '/')) c = false := by
      intro c hc
      injection hc with hc
      rw [← hc]
      decide
    rw [dropWhile_append_of_all _ _ hball (by simp) hh,
      List.dropWhile_cons_of_neg (by decide)]
  simp only [splitPath]
  rw [hrev, ht, hdp, List.reverse_cons, List.reverse_reverse]
  by_cases hdnil : dir = []
  · subst hdnil
    simp
  · have hlast : dir.getLast? ≠ some '/' := by
      rcases hd with h1 | h2
      · exact absurd h1 hdnil
      · exact h2
    have hgl : ∃ c t2, dir.reverse = c :: t2 := by
      cases hr : dir.reverse with
      | nil => exact absurd (by rw [← List.reverse_reverse dir, hr]; rfl) hdnil
      | cons c t2 => exact ⟨c, t2, rfl⟩
    obtain ⟨c, t2, hrev2⟩ := hgl
    have hcne : c ≠ '/' := by
      intro hc
      apply hlast
      rw [List.getLast?_eq_head?_reverse, hrev2, hc]
      rfl
    have hall : ¬(dir ++ ['/'] = [] ∨
        ((dir ++ ['/']).all fun c => decide (c = '/')) = true) := by
      rintro (h1 | h2)
      · exact absurd h1 (by simp)
      · rw [List.all_eq_true] at h2
        have hcmem : c ∈ dir :=
          List.mem_reverse.mp (by rw [hrev2]; exact List.mem_cons_self c t2)
        have := h2 c (List.mem_append_left _ hcmem)
        exact hcne (of_decide_eq_true this)
    rw [if_neg hall, if_neg hdnil]
    have hrev3 : (dir ++ ['/']).reverse = '/' :: dir.reverse := by
      rw [List.reverse_append]
      rfl
    rw [hrev3, List.dropWhile_cons_of_pos (by decide), hrev2,
      List.dropWhile_cons_of_neg (by simpa using hcne), ← hrev2, List.reverse_reverse,
      List.reverse_reverse]

theorem joinPath_split {dir base : List Char}
    (hb : ∀ c ∈ base, c ≠ '/') (hbne : base ≠ [])
    (hd : dir = [] ∨ dir.getLast? ≠ some '/') :
    joinPath (if dir = [] then ['/'] else dir) base = dir ++ '/' :: base := by
  have hbh : ¬(base.head? = some '/') := by
    cases base with
    | nil => exact absurd rfl hbne
    | cons c t =>
      intro hc
      injection hc with hc
      exact hb c (List.mem_cons_self c t) hc
  by_cases hdnil : dir = []
  · subst hdnil
    show joinPath ['/'] base = [] ++ '/' :: base
    unfold joinPath
    rw [if_neg hbh, if_pos (Or.inr (by rfl))]
    rfl
  · have hlast : dir.getLast? ≠ some '/' := by
      rcases hd with h1 | h2
      · exact absurd h1 hdnil
      · exact h2
    rw [if_neg hdnil]
    unfold joinPath
    rw [if_neg hbh, if_neg (by rintro (h1 | h2); exact hdnil h1; exact hlast h2)]

/-! ## Splitting the basename on dots -/

theorem splitOnDot_no_dot : ∀ {l : List Char}, (∀ c ∈ l, c ≠ '.') → splitOnDot l = [l] := by
  intro l h
  induction l with
  | nil => rfl
  | cons c t ih =>
    rw [splitOnDot, if_neg (h c (List.mem_cons_self c t)),
      ih (fun x hx => h x (List.mem_cons_of_mem c hx))]

theorem splitOnDot_append {a : List Char} (b : List Char) (ha : ∀ c ∈ a, c ≠ '.') :
    splitOnDot (a ++ '.' :: b) = a :: splitOnDot b := by
  induction a with
  | nil =>
    rw [List.nil_append, splitOnDot, if_pos rfl]
  | cons c t ih =>
    rw [List.cons_append, splitOnDot, if_neg (ha c (List.mem_cons_self c t)),
      ih (fun x hx => ha x (List.mem_cons_of_mem c hx))]

theorem splitOnDot_ne_nil : ∀ l : List Char, splitOnDot l ≠ [] := by
  intro l
  induction l with
  | nil => simp [splitOnDot]
  | cons c t ih =>
    rw [splitOnDot]
    split_ifs
    · simp
    · cases h : splitOnDot t with
      | nil => exact absurd h ih
      | cons x xs => simp

theorem splitOnDot_length : ∀ l : List Char, (splitOnDot l).length = l.count '.' + 1 := by
  intro l
  induction l with
  | nil => rfl
  | cons c t ih =>
    rw [splitOnDot]
    split_ifs with hc
    · subst hc
      rw [List.count_cons_self]
      simp [ih]
    · cases h : splitOnDot t with
      | nil => exact absurd h (splitOnDot_ne_nil t)
      | cons x xs =>
        have : (c :: t).count '.' = t.count '.' := by
          rw [List.count_cons]
          simp [hc]
        rw [this, ← ih, h]
        rfl

/-! ## Character facts about the strftime output -/

theorem strftime_chars {t : DT} : ∀ c ∈ strftimeYmdHM t, c ≠ '.' ∧ c ≠ '/' := by
  have hdig : ∀ n : Nat, digitChar (n % 10) ≠ '.' ∧ digitChar (n % 10) ≠ '/' := by
    intro n
    have h := digitChar_ne_special (Nat.mod_lt n (by norm_num))
    exact ⟨h.1, h.2.1⟩
  intro c hc
  unfold strftimeYmdHM pad4 pad2 at hc
  simp only [List.mem_append, List.mem_cons, List.not_mem_nil, or_false] at hc
  casesm* _ ∨ _ <;>
    subst_vars <;>
    first
      | exact hdig _
      | exact ⟨by decide, by decide⟩

theorem strftime_length (t : DT) : (strftimeYmdHM t).length = 16 := by
  simp [strftimeYmdHM, pad4, pad2]

/-! ## Claim C8 -/

/-- C8: for a well-formed path of the shape dir/interval.T with T either
the wip suffix or a strftime-rendered timestamp the datetime constructor
accepts (four-digit year), from_path followed by the path property
reproduces the original string. Well-formed means: the directory part does
not end in a slash (or is empty), and the interval holds neither slashes
nor dots. -/
theorem c8_from_path_roundtrip :
    ∀ (dir intv : List Char) (ts : Option DT),
      (dir = [] ∨ dir.getLast? ≠ some '/') →
      (∀ c ∈ intv, c ≠ '/' ∧ c ≠ '.') →
      tsOk ts = true →
      (fromPath (dir ++ '/' :: (intv ++ '.' :: stimestampChars ts))).map pathOf =
        .ok (dir ++ '/' :: (intv ++ '.' :: stimestampChars ts)) := by
  intro dir intv ts hd hi hts
  have hsuf : ∀ c ∈ stimestampChars ts, c ≠ '.' ∧ c ≠ '/' := by
    cases ts with
    | none => decide
    | some t => exact strftime_chars
  have hbs : ∀ c ∈ intv ++ '.' :: stimestampChars ts, c ≠ '/' := by
    intro c hc
    rcases List.mem_append.mp hc with h | h
    · exact (hi c h).1
    · rcases List.mem_cons.mp h with h2 | h2
      · subst h2
        decide
      · exact (hsuf c h2).2
  have hsplit := splitPath_append hbs hd
  have hdots : splitOnDot (intv ++ '.' :: stimestampChars ts) =
      [intv, stimestampChars ts] := by
    rw [splitOnDot_append _ (fun c hc => (hi c hc).2),
      splitOnDot_no_dot (fun c hc => (hsuf c hc).1)]
  have hjoin : joinPath (if dir = [] then ['/'] else dir)
      (intv ++ '.' :: stimestampChars ts) =
      dir ++ '/' :: (intv ++ '.' :: stimestampChars ts) :=
    joinPath_split hbs (by simp) hd
  simp only [fromPath, hsplit, hdots]
  cases ts with
  | none =>
    rw [if_pos (show stimestampChars none = wipChars from rfl)]
    simp only [Except.map, pathOf]
    rw [hjoin]
  | some t =>
    have hne : stimestampChars (some t) ≠ wipChars := by
      intro h
      have hlen : (strftimeYmdHM t).length = wipChars.length := congrArg List.length h
      rw [strftime_length t] at hlen
      exact absurd hlen (by decide)
    rw [if_neg hne]
    have hv : validDT t = true ∧ 1000 ≤ t.year := by
      simp only [tsOk, Bool.and_eq_true, decide_eq_true_eq] at hts
      exact hts
    rw [show stimestampChars (some t) = strftimeYmdHM t from rfl,
      strptime_strftime hv.1 hv.2]
    simp only [Except.map, pathOf]
    rw [hjoin]
    rfl

/-- C8, witness: the theorem at a one-letter directory, a one-letter
interval and the timestamp 2014-07-01T10:10, and at the wip suffix. -/
theorem c8_witness :
    (fromPath (['b'] ++ '/' :: (['h'] ++ '.' ::
        stimestampChars (some ⟨2014, 7, 1, 10, 10⟩)))).map pathOf =
      .ok (['b'] ++ '/' :: (['h'] ++ '.' :: stimestampChars (some ⟨2014, 7, 1, 10, 10⟩))) ∧
    (fromPath (['b'] ++ '/' :: (['h'] ++ '.' :: stimestampChars none))).map pathOf =
      .ok (['b'] ++ '/' :: (['h'] ++ '.' :: stimestampChars none)) :=
  ⟨c8_from_path_roundtrip ['b'] ['h'] (some ⟨2014, 7, 1, 10, 10⟩) (by decide) (by decide)
      (by decide),
    c8_from_path_roundtrip ['b'] ['h'] none (by decide) (by decide) (by decide)⟩

/-! ## Claim C9 -/

/-- C9: from_path returns a snapshot exactly when the basename splits on
the dot into two parts, equivalently contains exactly one dot, and the
part after the dot is the literal wip or a string strptime parses; on
every other input it raises ValueError (the only error from_path
produces). -/
theorem c9_from_path_acceptance :
    ∀ p : List Char,
      (((splitOnDot (splitPath p).2).length = 2) ↔ ((splitPath p).2.count '.' = 1)) ∧
      ((∃ sid, fromPath p = .ok sid) ↔
        (∃ intv st, splitOnDot (splitPath p).2 = [intv, st] ∧
          (st = wipChars ∨ (strptimeYmdHM st).isSome = true))) ∧
      ((¬ ∃ sid, fromPath p = .ok sid) → fromPath p = .error .valueError) := by
  intro p
  refine ⟨?_, ?_, ?_⟩
  · rw [splitOnDot_length]
    omega
  · cases hsd : splitOnDot (splitPath p).2 with
    | nil =>
      constructor
      · rintro ⟨sid, hsid⟩
        simp [fromPath, hsd] at hsid
      · rintro ⟨intv, st, heq, -⟩
        exact absurd heq (by simp)
    | cons a tail =>
      cases tail with
      | nil =>
        constructor
        · rintro ⟨sid, hsid⟩
          simp [fromPath, hsd] at hsid
        · rintro ⟨intv, st, heq, -⟩
          exact absurd heq (by simp)
      | cons b tail2 =>
        cases tail2 with
        | nil =>
          constructor
          · rintro ⟨sid, hsid⟩
            refine ⟨a, b, rfl, ?_⟩
            by_cases hw : b = wipChars
            · exact Or.inl hw
            · simp only [fromPath, hsd, if_neg hw] at hsid
              cases hst : strptimeYmdHM b with
              | none => simp [hst] at hsid
              | some t => simp [hst]
          · rintro ⟨intv, st, heq, hor⟩
            by_cases hw : b = wipChars
            · exact ⟨⟨(splitPath p).1, a, none⟩, by simp [fromPath, hsd, hw]⟩
            · have hbst : b = st := by
                injection heq with h2a h2b
                injection h2b with h2b
              have hsome : (strptimeYmdHM b).isSome = true := by
                rcases hor with h1 | h1
                · exact absurd (hbst.trans h1) hw
                · rw [hbst]
                  exact h1
              obtain ⟨t, hst⟩ := Option.isSome_iff_exists.mp hsome
              exact ⟨⟨(splitPath p).1, a, some t⟩, by simp [fromPath, hsd, if_neg hw, hst]⟩
        | cons c0 t0 =>
          constructor
          · rintro ⟨sid, hsid⟩
            simp [fromPath, hsd] at hsid
          · rintro ⟨intv, st, heq, -⟩
            exact absurd heq (by simp)
  · intro hn
    cases hf : fromPath p with
    | ok sid => exact absurd ⟨sid, hf⟩ hn
    | error e =>
      cases e
      rfl

/-- C9, witness: the theorem instantiated at a path whose timestamp
carries seconds, which strptime rejects. -/
theorem c9_witness :
    (((splitOnDot (splitPath "back/hourly.2014-07-01T10:10:30".toList).2).length = 2) ↔
      (((splitPath "back/hourly.2014-07-01T10:10:30".toList).2.count '.') = 1)) ∧
    ((∃ sid, fromPath "back/hourly.2014-07-01T10:10:30".toList = .ok sid) ↔
      (∃ intv st, splitOnDot (splitPath "back/hourly.2014-07-01T10:10:30".toList).2 =
          [intv, st] ∧
        (st = wipChars ∨ (strptimeYmdHM st).isSome = true))) ∧
    ((¬ ∃ sid, fromPath "back/hourly.2014-07-01T10:10:30".toList = .ok sid) →
      fromPath "back/hourly.2014-07-01T10:10:30".toList = .error .valueError) :=
  c9_from_path_acceptance "back/hourly.2014-07-01T10:10:30".toList

end Backup
